import Mathlib

/-!
# go-stockpile: an in-process key/value cache with time-to-live expiration

A shallow embedding of `stockpile.go`.

* The Go map `map[string]item` is an association list with pairwise distinct
  keys (`AList`): lookup, insertion (`store[k] = ...`), removal (`delete`) and
  `len` are the list operations.
* `interface{}` values are `Option V`: `none` is the nil interface.
* A `time.Time` is represented by its `UnixNano()` reading, an `Int` in the
  int64 range; a `time.Duration` is an `Int` number of nanoseconds.
  `time.Now().Add(d).UnixNano()` is the int64 wrap of `now + d`.
* Every method that reads the clock takes the reading `now` as an argument.
* `New` returns the cache it builds; the janitor is recorded with its interval,
  the goroutine running it and the finalizer are outside the state.
* The lock is not modelled: every method is one atomic step.  The goroutine
  started by `go c.Delete(item.key)` in `Get` is returned as data (the key it
  will delete) and run later with `cache.Delete`.
-/

namespace Stockpile

/-! ## Machine integers -/

/-- Smallest int64. -/
def MinInt64 : Int := -9223372036854775808

/-- Largest int64, also the largest `time.Duration`. -/
def MaxInt64 : Int := 9223372036854775807

/-- Two's complement wrap of an integer into the int64 range. -/
def wrapInt64 (x : Int) : Int := (x + 9223372036854775808) % 18446744073709551616 - 9223372036854775808

/-- Membership in the int64 range. -/
def isInt64 (x : Int) : Prop := MinInt64 ≤ x ∧ x ≤ MaxInt64

instance (x : Int) : Decidable (isInt64 x) := by
  unfold isInt64; infer_instance

/-- A reading of `time.Now().UnixNano()`: an int64 that is not before the Unix
epoch. -/
def isClock (t : Int) : Prop := 0 ≤ t ∧ t ≤ MaxInt64

instance (t : Int) : Decidable (isClock t) := by
  unfold isClock; infer_instance

/-! ## Constants of the package -/

/-- `NoExpiry time.Duration = -1`. -/
def NoExpiry : Int := -1

/-- `time.Millisecond`, in nanoseconds. -/
def Millisecond : Int := 1000000

/-! ## Data model -/

/-- `type item struct { key string; val interface{}; exp int64 }`. -/
structure item (V : Type) where
  key : String
  val : Option V
  exp : Int
deriving DecidableEq

/-- `type janitor struct { interval time.Duration; stop chan struct{} }`;
the channel carries no data and is left out. -/
structure janitor where
  interval : Int
deriving DecidableEq

/-- The Go map `map[string]item`. -/
abbrev Store (V : Type) := AList (fun _ : String => item V)

/-- `type cache struct { mu sync.RWMutex; store map[string]item; janitor *janitor }`. -/
structure cache (V : Type) where
  store : Store V
  janitor : Option janitor

/-- What a call of `Get` produces: the two return values, the cache after the
call, and the keys of the `go c.Delete(..)` goroutines it started. -/
structure GetResult (V : Type) where
  val : Option V
  ok : Bool
  c : cache V
  spawned : List String

/-! ## Operations -/

/-- `func New(ci time.Duration) *Cache`: an empty map, and a janitor exactly
when `ci > 0`. -/
def New {V : Type} (ci : Int) : cache V :=
  { store := ∅, janitor := if ci > 0 then some { interval := ci } else none }

/-- `func (i *item) isExpired(now time.Time) bool`. -/
def item.isExpired {V : Type} (i : item V) (now : Int) : Bool :=
  if i.exp = 0 then false else decide (now > i.exp)

/-- `func (c *cache) set(k string, v interface{}, d time.Duration)`; `now` is
the reading of `time.Now()`. -/
def cache.set {V : Type} (c : cache V) (k : String) (v : Option V) (d : Int) (now : Int) : cache V :=
  let e : Int := if d > 0 then wrapInt64 (now + d) else 0
  { c with store := c.store.insert k { key := k, val := v, exp := e } }

/-- `func (c *cache) Set(k string, v interface{}, d time.Duration)`. -/
def cache.Set {V : Type} (c : cache V) (k : String) (v : Option V) (d : Int) (now : Int) : cache V :=
  c.set k v (if d ≤ 0 then NoExpiry else d) now

/-- `func (c *cache) SetNoExpiry(k string, v interface{})`. -/
def cache.SetNoExpiry {V : Type} (c : cache V) (k : String) (v : Option V) (now : Int) : cache V :=
  c.set k v NoExpiry now

/-- `func (c *cache) Delete(k string)`. -/
def cache.Delete {V : Type} (c : cache V) (k : String) : cache V :=
  { c with store := c.store.erase k }

/-- `func (c *cache) Get(k string) (interface{}, bool)`. -/
def cache.Get {V : Type} (c : cache V) (k : String) (now : Int) : GetResult V :=
  match c.store.lookup k with
  | none => { val := none, ok := false, c := c, spawned := [] }
  | some it =>
    if it.exp > 0 ∧ it.isExpired now = true then
      { val := none, ok := false, c := c, spawned := [it.key] }
    else
      { val := it.val, ok := true, c := c, spawned := [] }

/-- `func (c *cache) Reset()`. -/
def cache.Reset {V : Type} (c : cache V) : cache V :=
  { c with store := ∅ }

/-- `func (c *cache) Count() int`. -/
def cache.Count {V : Type} (c : cache V) : Int :=
  (c.store.entries.length : Int)

/-- One iteration of the loop body of `evict`: `if v.isExpired(now) { delete(c.store, k) }`. -/
def evictStep {V : Type} (now : Int) (m : Store V) (e : Sigma (fun _ : String => item V)) : Store V :=
  if e.2.isExpired now then m.erase e.1 else m

/-- The loop of `evict` run over the entries `es` in that order. -/
def evictOver {V : Type} (now : Int) (es : List (Sigma (fun _ : String => item V))) (m : Store V) : Store V :=
  es.foldl (evictStep now) m

/-- `func (c *cache) evict()`: one captured `now`, then the loop over the map. -/
def cache.evict {V : Type} (c : cache V) (now : Int) : cache V :=
  { c with store := evictOver now c.store.entries c.store }

/-- The pair of values a `Get` returns. -/
def GetResult.ret {V : Type} (r : GetResult V) : Option V × Bool := (r.val, r.ok)

/-! ## Histories of calls -/

/-- One call on a cache, with the clock reading it sees.  The delete that a
`Get` starts runs later, if at all: in a history it is a `doDelete` of its own. -/
inductive Op (V : Type) where
  | doSet (k : String) (v : Option V) (d : Int) (now : Int)
  | doSetNoExpiry (k : String) (v : Option V) (now : Int)
  | doGet (k : String) (now : Int)
  | doDelete (k : String)
  | doReset
  | doCount
  | doEvict (now : Int)

/-- The cache after one call. -/
def Op.run {V : Type} : Op V → cache V → cache V
  | Op.doSet k v d now, c => c.Set k v d now
  | Op.doSetNoExpiry k v now, c => c.SetNoExpiry k v now
  | Op.doGet k now, c => (c.Get k now).c
  | Op.doDelete k, c => c.Delete k
  | Op.doReset, c => c.Reset
  | Op.doCount, c => c
  | Op.doEvict now, c => c.evict now

/-- The cache after a sequence of calls, run from left to right. -/
def runOps {V : Type} (ops : List (Op V)) (c : cache V) : cache V :=
  ops.foldl (fun c op => op.run c) c

/-- The call writes the entry of `k` directly: a `Set`, `SetNoExpiry` or
`Delete` of `k`, or a `Reset`. -/
def Op.touches {V : Type} (k : String) : Op V → Bool
  | Op.doSet j _ _ _ => decide (j = k)
  | Op.doSetNoExpiry j _ _ => decide (j = k)
  | Op.doDelete j => decide (j = k)
  | Op.doReset => true
  | Op.doGet _ _ => false
  | Op.doCount => false
  | Op.doEvict _ => false

/-- A sweep pass, if the call is one, reads a clock that is at most `bound`. -/
def Op.sweepsBy {V : Type} (bound : Int) : Op V → Bool
  | Op.doEvict now => decide (now ≤ bound)
  | _ => true

/-- Every item of the map carries the key it is stored under. -/
def cache.keyed {V : Type} (c : cache V) : Prop :=
  ∀ (k : String) (it : item V), c.store.lookup k = some it → it.key = k

/-! ## The sweeper goroutine -/

/-- What the `select` of `janitor.run` receives: a tick of the ticker, with the
clock reading that the `evict` it triggers captures, or a value on `j.stop`. -/
inductive Event where
  | tick (now : Int)
  | stop
deriving DecidableEq

/-- Where the goroutine `j.run(c)` is: in its loop, or returned. -/
inductive RunState where
  | RUNNING
  | STOPPED
deriving DecidableEq

/-- The goroutine `j.run(c)`: its state, the cache it is bound to, and the
clock readings of the `evict` passes it has performed so far, oldest first. -/
structure Sweeper (V : Type) where
  state : RunState
  c : cache V
  passes : List Int

/-- One receipt in the loop of `janitor.run`: `case <-ticker.C: c.evict()` and
`case <-j.stop: ticker.Stop(); return`.  Once the function has returned nothing
is received any more. -/
def Sweeper.step {V : Type} (s : Sweeper V) (e : Event) : Sweeper V :=
  match s.state with
  | RunState.STOPPED => s
  | RunState.RUNNING =>
    match e with
    | Event.tick now => { s with c := s.c.evict now, passes := s.passes ++ [now] }
    | Event.stop => { s with state := RunState.STOPPED }

/-- `func (j *janitor) run(c *cache)` over the sequence of events it is offered;
it starts in its loop, with no pass performed. -/
def janitor.run {V : Type} (_j : janitor) (c : cache V) (events : List Event) : Sweeper V :=
  events.foldl Sweeper.step { state := RunState.RUNNING, c := c, passes := [] }

/-- The clock readings of a list of events that are all ticks up to the first
stop, if there is one. -/
def ticksBeforeStop : List Event → List Int
  | [] => []
  | Event.tick now :: es => now :: ticksBeforeStop es
  | Event.stop :: _ => []

/-! ## The cache together with the deletes that `Get` has started -/

/-- The map plus the keys of the `go c.Delete(..)` goroutines that have been
started and have not run yet. -/
structure World (V : Type) where
  c : cache V
  pending : List String

/-- A call of `Get`: the goroutine it starts, if any, joins the pending ones. -/
def World.Get {V : Type} (w : World V) (k : String) (now : Int) : (Option V × Bool) × World V :=
  ((w.c.Get k now).ret, { c := (w.c.Get k now).c, pending := w.pending ++ (w.c.Get k now).spawned })

/-- A call of `Set`. -/
def World.Set {V : Type} (w : World V) (k : String) (v : Option V) (d : Int) (now : Int) : World V :=
  { w with c := w.c.Set k v d now }

/-- A call of `SetNoExpiry`. -/
def World.SetNoExpiry {V : Type} (w : World V) (k : String) (v : Option V) (now : Int) : World V :=
  { w with c := w.c.SetNoExpiry k v now }

/-- The oldest pending `go c.Delete(k)` runs. -/
def World.runDelete {V : Type} (w : World V) : World V :=
  match w.pending with
  | [] => w
  | k :: rest => { c := w.c.Delete k, pending := rest }

/-! ## Sample data for the concrete checks -/

/-- A present-day clock reading (November 2023), in nanoseconds since the epoch. -/
def sampleNow : Int := 1700000000000000000

/-- The cache of `TestCacheExpiration`: sweep interval 1ms, "a" without expiry,
"b" with ttl 10ms, "c" with ttl 50ms, all set at `sampleNow`. -/
def testCache : cache Nat :=
  (((New Millisecond : cache Nat).SetNoExpiry "a" (some 1) sampleNow).Set "b" (some 2)
    (10 * Millisecond) sampleNow).Set "c" (some 3) (50 * Millisecond) sampleNow

/-- Sweep passes after 1ms, 2ms and 11ms, and a read of "b" after 11ms. -/
def testSweeps : List (Op Nat) :=
  [Op.doEvict (sampleNow + 1 * Millisecond), Op.doEvict (sampleNow + 2 * Millisecond),
   Op.doGet "b" (sampleNow + 11 * Millisecond), Op.doEvict (sampleNow + 11 * Millisecond)]

/-- A cache with a janitor in which "k" was set with the largest duration at
`sampleNow`. -/
def overflowCache : cache Nat :=
  (New Millisecond : cache Nat).Set "k" (some 7) MaxInt64 sampleNow

/-- "k" set with ttl 10ms at `sampleNow`, no delete pending. -/
def raceWorld0 : World Nat :=
  { c := (New 0 : cache Nat).Set "k" (some 1) (10 * Millisecond) sampleNow, pending := [] }

/-- Then `Get("k")` 11ms later, which finds the entry expired. -/
def raceWorld1 : World Nat := (raceWorld0.Get "k" (sampleNow + 11 * Millisecond)).2

/-- Then `Set("k", 2, NoExpiry)` 12ms later, before the started delete has run. -/
def raceWorld2 : World Nat := raceWorld1.Set "k" (some 2) NoExpiry (sampleNow + 12 * Millisecond)

/-- Then the started delete runs. -/
def raceWorld3 : World Nat := raceWorld2.runDelete

/-- Two ticks, a stop, and a tick and a stop that come too late. -/
def testEvents : List Event :=
  [Event.tick (sampleNow + 1 * Millisecond), Event.tick (sampleNow + 11 * Millisecond),
   Event.stop, Event.tick (sampleNow + 51 * Millisecond), Event.stop]

/-! ## Auxiliary lemmas -/

theorem wrapInt64_eq_self {x : Int} (h : isInt64 x) : wrapInt64 x = x := by
  unfold isInt64 MinInt64 MaxInt64 at h
  unfold wrapInt64
  omega

theorem lookup_evictStep {V : Type} (now : Int) (m : Store V)
    (e : Sigma (fun _ : String => item V)) (k : String) :
    (evictStep now m e).lookup k =
      if e.1 = k ∧ e.2.isExpired now = true then none else m.lookup k := by
  unfold evictStep
  by_cases hx : e.2.isExpired now = true
  · by_cases hk : e.1 = k
    · subst hk
      simp [hx, AList.lookup_erase]
    · have hk2 : k ≠ e.1 := fun h => hk h.symm
      simp [hx, hk, AList.lookup_erase_ne hk2]
  · simp [hx]

theorem lookup_evictOver {V : Type} (now : Int) (k : String) :
    ∀ (es : List (Sigma (fun _ : String => item V))) (m : Store V),
      (evictOver now es m).lookup k =
        if (∃ e ∈ es, e.1 = k ∧ e.2.isExpired now = true) then none else m.lookup k := by
  intro es
  induction es with
  | nil => intro m; simp [evictOver]
  | cons e es ih =>
    intro m
    have hfold : evictOver now (e :: es) m = evictOver now es (evictStep now m e) := rfl
    rw [hfold, ih, lookup_evictStep]
    by_cases h1 : ∃ x ∈ es, x.1 = k ∧ x.2.isExpired now = true
    · have h2 : ∃ x ∈ e :: es, x.1 = k ∧ x.2.isExpired now = true := by
        obtain ⟨x, hx, hp⟩ := h1
        exact ⟨x, List.mem_cons_of_mem _ hx, hp⟩
      rw [if_pos h1, if_pos h2]
    · rw [if_neg h1]
      by_cases h3 : e.1 = k ∧ e.2.isExpired now = true
      · have h2 : ∃ x ∈ e :: es, x.1 = k ∧ x.2.isExpired now = true :=
          ⟨e, List.mem_cons_self _ _, h3⟩
        rw [if_pos h3, if_pos h2]
      · have h2 : ¬ ∃ x ∈ e :: es, x.1 = k ∧ x.2.isExpired now = true := by
          rintro ⟨x, hx, hp⟩
          rcases List.mem_cons.mp hx with hxe | hxs
          · exact h3 (hxe ▸ hp)
          · exact h1 ⟨x, hxs, hp⟩
        rw [if_neg h3, if_neg h2]

/-- A sweep pass keeps exactly the entries that `isExpired` rejects. -/
theorem lookup_evict {V : Type} (c : cache V) (now : Int) (k : String) :
    (c.evict now).store.lookup k =
      (c.store.lookup k).filter (fun it => !it.isExpired now) := by
  show (evictOver now c.store.entries c.store).lookup k = _
  rw [lookup_evictOver]
  cases hl : c.store.lookup k with
  | none => simp [Option.filter]
  | some it =>
    have hmem : Sigma.mk k it ∈ c.store.entries := AList.mem_lookup_iff.mp (by simp [hl])
    by_cases hx : it.isExpired now = true
    · have h2 : ∃ e ∈ c.store.entries, e.1 = k ∧ e.2.isExpired now = true :=
        ⟨⟨k, it⟩, hmem, rfl, hx⟩
      rw [if_pos h2]
      simp [Option.filter, hx]
    · have h2 : ¬ ∃ e ∈ c.store.entries, e.1 = k ∧ e.2.isExpired now = true := by
        rintro ⟨⟨j, b⟩, he, hj, hb⟩
        simp only at hj hb
        subst hj
        have hb2 : b ∈ c.store.lookup j := AList.mem_lookup_iff.mpr he
        rw [hl] at hb2
        have : it = b := by simpa using hb2
        exact hx (this ▸ hb)
      rw [if_neg h2]
      simp [Option.filter, hx]

theorem isExpired_eq_false_of_le {V : Type} (it : item V) (now : Int) (h : now ≤ it.exp) :
    it.isExpired now = false := by
  unfold item.isExpired
  by_cases h0 : it.exp = 0
  · simp [h0]
  · simp [h0]; omega

theorem isExpired_eq_false_of_zero {V : Type} (it : item V) (now : Int) (h : it.exp = 0) :
    it.isExpired now = false := by
  simp [item.isExpired, h]

theorem isExpired_eq_true_of_lt {V : Type} (it : item V) (now : Int) (h0 : it.exp ≠ 0)
    (h : it.exp < now) : it.isExpired now = true := by
  simp [item.isExpired, h0, h]

theorem Get_of_lookup_none {V : Type} (c : cache V) (k : String) (now : Int)
    (h : c.store.lookup k = none) :
    c.Get k now = { val := none, ok := false, c := c, spawned := [] } := by
  unfold cache.Get
  rw [h]

theorem Get_of_live {V : Type} (c : cache V) (k : String) (now : Int) (it : item V)
    (h : c.store.lookup k = some it) (hlive : it.exp ≤ 0 ∨ now ≤ it.exp) :
    c.Get k now = { val := it.val, ok := true, c := c, spawned := [] } := by
  unfold cache.Get
  rw [h]
  have hn : ¬ (it.exp > 0 ∧ it.isExpired now = true) := by
    rintro ⟨hpos, hx⟩
    rcases hlive with h1 | h1
    · omega
    · rw [isExpired_eq_false_of_le it now h1] at hx
      exact Bool.noConfusion hx
  simp only [hn, if_false]

theorem Get_of_expired {V : Type} (c : cache V) (k : String) (now : Int) (it : item V)
    (h : c.store.lookup k = some it) (hpos : 0 < it.exp) (hlt : it.exp < now) :
    c.Get k now = { val := none, ok := false, c := c, spawned := [it.key] } := by
  unfold cache.Get
  rw [h]
  have hy : it.exp > 0 ∧ it.isExpired now = true :=
    ⟨hpos, isExpired_eq_true_of_lt it now (by omega) hlt⟩
  simp only [hy, and_self, if_true]

theorem lookup_set_self {V : Type} (c : cache V) (k : String) (v : Option V) (d now : Int) :
    (c.set k v d now).store.lookup k =
      some { key := k, val := v, exp := if d > 0 then wrapInt64 (now + d) else 0 } := by
  simp [cache.set, AList.lookup_insert]

theorem lookup_set_ne {V : Type} (c : cache V) (k j : String) (v : Option V) (d now : Int)
    (h : j ≠ k) : (c.set k v d now).store.lookup j = c.store.lookup j := by
  simp [cache.set, AList.lookup_insert_ne h]

theorem lookup_Delete_self {V : Type} (c : cache V) (k : String) :
    (c.Delete k).store.lookup k = none := by
  simp [cache.Delete, AList.lookup_erase]

theorem lookup_Delete_ne {V : Type} (c : cache V) (k j : String) (h : j ≠ k) :
    (c.Delete k).store.lookup j = c.store.lookup j := by
  simp [cache.Delete, AList.lookup_erase_ne h]

theorem Get_c {V : Type} (c : cache V) (k : String) (now : Int) : (c.Get k now).c = c := by
  unfold cache.Get
  cases c.store.lookup k with
  | none => rfl
  | some it =>
    by_cases h : it.exp > 0 ∧ it.isExpired now = true
    · simp only [h, and_self, if_true]
    · simp only [h, if_false]

/-- A call that does not write the entry of `k` leaves it as it is, unless the
call is a sweep pass that finds it expired. -/
theorem lookup_run_keep {V : Type} (op : Op V) (c : cache V) (k : String) (it : item V)
    (ht : op.touches k = false) (h : c.store.lookup k = some it)
    (hx : ∀ t, op = Op.doEvict t → it.isExpired t = false) :
    (op.run c).store.lookup k = some it := by
  cases op with
  | doSet j v d now =>
    have hj : k ≠ j := by
      intro e; simp [Op.touches, e] at ht
    show (c.set j v _ now).store.lookup k = some it
    rw [lookup_set_ne c j k v _ now hj, h]
  | doSetNoExpiry j v now =>
    have hj : k ≠ j := by
      intro e; simp [Op.touches, e] at ht
    show (c.set j v _ now).store.lookup k = some it
    rw [lookup_set_ne c j k v _ now hj, h]
  | doGet j now => show ((c.Get j now).c).store.lookup k = some it; rw [Get_c, h]
  | doDelete j =>
    have hj : k ≠ j := by
      intro e; simp [Op.touches, e] at ht
    show (c.Delete j).store.lookup k = some it
    rw [lookup_Delete_ne c j k hj, h]
  | doReset => simp [Op.touches] at ht
  | doCount => exact h
  | doEvict now =>
    show (c.evict now).store.lookup k = some it
    rw [lookup_evict, h]
    simp [Option.filter, hx now rfl]

/-- A call that does not write the entry of `k` never creates or changes it. -/
theorem lookup_run_sub {V : Type} (op : Op V) (c : cache V) (k : String) (it : item V)
    (ht : op.touches k = false) (h : (op.run c).store.lookup k = some it) :
    c.store.lookup k = some it := by
  cases op with
  | doSet j v d now =>
    have hj : k ≠ j := by
      intro e; simp [Op.touches, e] at ht
    have h2 : (c.set j v _ now).store.lookup k = some it := h
    rwa [lookup_set_ne c j k v _ now hj] at h2
  | doSetNoExpiry j v now =>
    have hj : k ≠ j := by
      intro e; simp [Op.touches, e] at ht
    have h2 : (c.set j v _ now).store.lookup k = some it := h
    rwa [lookup_set_ne c j k v _ now hj] at h2
  | doGet j now =>
    have h2 : ((c.Get j now).c).store.lookup k = some it := h
    rwa [Get_c] at h2
  | doDelete j =>
    have hj : k ≠ j := by
      intro e; simp [Op.touches, e] at ht
    have h2 : (c.Delete j).store.lookup k = some it := h
    rwa [lookup_Delete_ne c j k hj] at h2
  | doReset => simp [Op.touches] at ht
  | doCount => exact h
  | doEvict now =>
    have h2 : (c.evict now).store.lookup k = some it := h
    rw [lookup_evict] at h2
    cases hl : c.store.lookup k with
    | none => rw [hl] at h2; simp [Option.filter] at h2
    | some b =>
      rw [hl] at h2
      by_cases hb : b.isExpired now = true
      · simp [Option.filter, hb] at h2
      · simp [Option.filter, hb] at h2
        rw [h2]

theorem lookup_runOps_keep {V : Type} (k : String) (it : item V) :
    ∀ (ops : List (Op V)) (c : cache V),
      (∀ op ∈ ops, op.touches k = false) →
      (∀ op ∈ ops, ∀ t, op = Op.doEvict t → it.isExpired t = false) →
      c.store.lookup k = some it →
      (runOps ops c).store.lookup k = some it := by
  intro ops
  induction ops with
  | nil => intro c _ _ h; exact h
  | cons op ops ih =>
    intro c ht hx h
    have hstep : runOps (op :: ops) c = runOps ops (op.run c) := rfl
    rw [hstep]
    apply ih
    · intro o ho; exact ht o (List.mem_cons_of_mem _ ho)
    · intro o ho; exact hx o (List.mem_cons_of_mem _ ho)
    · exact lookup_run_keep op c k it (ht op (List.mem_cons_self _ _)) h
        (hx op (List.mem_cons_self _ _))

theorem lookup_runOps_sub {V : Type} (k : String) (it : item V) :
    ∀ (ops : List (Op V)) (c : cache V),
      (∀ op ∈ ops, op.touches k = false) →
      (runOps ops c).store.lookup k = some it →
      c.store.lookup k = some it := by
  intro ops
  induction ops with
  | nil => intro c _ h; exact h
  | cons op ops ih =>
    intro c ht h
    have hstep : runOps (op :: ops) c = runOps ops (op.run c) := rfl
    rw [hstep] at h
    have h2 := ih (op.run c) (fun o ho => ht o (List.mem_cons_of_mem _ ho)) h
    exact lookup_run_sub op c k it (ht op (List.mem_cons_self _ _)) h2

theorem lookup_Set_self {V : Type} (c : cache V) (k : String) (v : Option V) (d now : Int) :
    (c.Set k v d now).store.lookup k =
      some { key := k, val := v, exp := if d > 0 then wrapInt64 (now + d) else 0 } := by
  unfold cache.Set
  rw [lookup_set_self]
  by_cases h : d ≤ 0
  · have h2 : ¬ d > 0 := by omega
    simp [h, h2, NoExpiry]
  · have h2 : d > 0 := by omega
    simp [h, h2]

theorem lookup_SetNoExpiry_self {V : Type} (c : cache V) (k : String) (v : Option V) (now : Int) :
    (c.SetNoExpiry k v now).store.lookup k = some { key := k, val := v, exp := 0 } := by
  unfold cache.SetNoExpiry
  rw [lookup_set_self]
  simp [NoExpiry]

theorem lookup_runOps_none {V : Type} (k : String) (ops : List (Op V)) (c : cache V)
    (hk : ∀ op ∈ ops, op.touches k = false) (h : c.store.lookup k = none) :
    (runOps ops c).store.lookup k = none := by
  cases hl : (runOps ops c).store.lookup k with
  | none => rfl
  | some it =>
    have h2 := lookup_runOps_sub k it ops c hk hl
    rw [h] at h2
    exact Option.noConfusion h2

theorem keyed_New {V : Type} (ci : Int) : (New ci : cache V).keyed := by
  intro k it h
  have h2 : (∅ : Store V).lookup k = some it := h
  rw [AList.lookup_empty] at h2
  exact Option.noConfusion h2

theorem keyed_set {V : Type} (c : cache V) (k : String) (v : Option V) (d now : Int)
    (h : c.keyed) : (c.set k v d now).keyed := by
  intro j it hj
  by_cases e : j = k
  · subst e
    rw [lookup_set_self] at hj
    have hit : it = { key := j, val := v, exp := if d > 0 then wrapInt64 (now + d) else 0 } := by
      simpa using hj.symm
    rw [hit]
  · rw [lookup_set_ne c k j v d now e] at hj
    exact h j it hj

theorem keyed_run {V : Type} (op : Op V) (c : cache V) (h : c.keyed) : (op.run c).keyed := by
  cases op with
  | doSet j v d now => exact keyed_set c j v _ now h
  | doSetNoExpiry j v now => exact keyed_set c j v _ now h
  | doGet j now => show ((c.Get j now).c).keyed; rw [Get_c]; exact h
  | doDelete j =>
    intro k it hk
    have hk2 : (c.Delete j).store.lookup k = some it := hk
    by_cases e : k = j
    · subst e
      rw [lookup_Delete_self] at hk2
      exact Option.noConfusion hk2
    · rw [lookup_Delete_ne c j k e] at hk2
      exact h k it hk2
  | doReset =>
    intro k it hk
    have h2 : (∅ : Store V).lookup k = some it := hk
    rw [AList.lookup_empty] at h2
    exact Option.noConfusion h2
  | doCount => exact h
  | doEvict now =>
    intro k it hk
    exact h k it (lookup_run_sub (Op.doEvict now) c k it rfl hk)

theorem keyed_runOps {V : Type} : ∀ (ops : List (Op V)) (c : cache V), c.keyed →
    (runOps ops c).keyed := by
  intro ops
  induction ops with
  | nil => intro c h; exact h
  | cons op ops ih => intro c h; exact ih (op.run c) (keyed_run op c h)

theorem keyed_testCache : testCache.keyed :=
  keyed_set _ _ _ _ _ (keyed_set _ _ _ _ _ (keyed_set _ _ _ _ _ (keyed_New _)))

theorem length_kerase_of_mem {V : Type} (k : String) :
    ∀ (l : List (Sigma (fun _ : String => item V))), k ∈ l.keys →
      (List.kerase k l).length + 1 = l.length := by
  intro l h
  obtain ⟨b, l1, l2, _, hl, hk⟩ := List.exists_of_kerase h
  rw [hk, hl]
  simp [List.length_append]
  omega

/-- `store[k] = ...` adds one entry when `k` is absent. -/
theorem Count_set_of_absent {V : Type} (c : cache V) (k : String) (v : Option V) (d now : Int)
    (h : c.store.lookup k = none) : (c.set k v d now).Count = c.Count + 1 := by
  have hk : k ∉ c.store := AList.lookup_eq_none.mp h
  unfold cache.Count cache.set
  simp only [AList.insert_entries_of_neg hk, List.length_cons]
  push_cast
  rfl

/-- `store[k] = ...` keeps the number of entries when `k` is present. -/
theorem Count_set_of_present {V : Type} (c : cache V) (k : String) (v : Option V) (d now : Int)
    (h : c.store.lookup k ≠ none) : (c.set k v d now).Count = c.Count := by
  have hk : k ∈ c.store.entries.keys := by
    by_contra hn
    exact h (AList.lookup_eq_none.mpr hn)
  have hlen := length_kerase_of_mem k c.store.entries hk
  unfold cache.Count cache.set
  simp only [AList.insert_entries, List.length_cons]
  rw [hlen]

theorem cache_ext {V : Type} (c d : cache V) (hs : c.store.entries = d.store.entries)
    (hj : c.janitor = d.janitor) : c = d := by
  cases c with
  | mk cs cj =>
    cases d with
    | mk ds dj =>
      have h1 : cs = ds := AList.ext hs
      have h2 : cj = dj := hj
      rw [h1, h2]

theorem Delete_of_absent {V : Type} (c : cache V) (k : String) (h : c.store.lookup k = none) :
    c.Delete k = c := by
  have hk : k ∉ c.store.entries.keys := AList.lookup_eq_none.mp h
  apply cache_ext
  · show List.kerase k c.store.entries = c.store.entries
    exact List.kerase_of_not_mem_keys hk
  · rfl

/-- Setting pairwise distinct keys that the map does not hold adds one entry
per key. -/
theorem Count_runOps_sets {V : Type} (mk : String → Op V)
    (hmk : ∀ k, (∃ v d t, mk k = Op.doSet k v d t) ∨ (∃ v t, mk k = Op.doSetNoExpiry k v t)) :
    ∀ (keys : List String) (c : cache V), keys.Nodup →
      (∀ k ∈ keys, c.store.lookup k = none) →
      (runOps (keys.map mk) c).Count = c.Count + (keys.length : Int) := by
  intro keys
  induction keys with
  | nil => intro c _ _; simp [runOps]
  | cons k ks ih =>
    intro c hnd habs
    have hk : k ∉ ks := (List.nodup_cons.mp hnd).1
    have hks : ks.Nodup := (List.nodup_cons.mp hnd).2
    have hstep : runOps ((k :: ks).map mk) c = runOps (ks.map mk) ((mk k).run c) := rfl
    have hrun : ∃ v d t, (mk k).run c = c.set k v d t := by
      rcases hmk k with ⟨v, d, t, h⟩ | ⟨v, t, h⟩
      · exact ⟨v, _, t, by rw [h]; rfl⟩
      · exact ⟨v, _, t, by rw [h]; rfl⟩
    obtain ⟨v, d, t, hrun⟩ := hrun
    rw [hstep, hrun, ih (c.set k v d t) hks]
    · rw [Count_set_of_absent c k v d t (habs k (List.mem_cons_self _ _))]
      simp only [List.length_cons]
      push_cast
      ring
    · intro j hj
      have hjk : j ≠ k := fun e => hk (e ▸ hj)
      rw [lookup_set_ne c k j v d t hjk]
      exact habs j (List.mem_cons_of_mem _ hj)

/-- `delete(store, k)` removes exactly one entry when `k` is present. -/
theorem Count_Delete_of_present {V : Type} (c : cache V) (k : String)
    (h : c.store.lookup k ≠ none) : (c.Delete k).Count + 1 = c.Count := by
  have hk : k ∈ c.store.entries.keys := by
    by_contra hn
    exact h (AList.lookup_eq_none.mpr hn)
  have hlen := length_kerase_of_mem k c.store.entries hk
  show ((List.kerase k c.store.entries).length : Int) + 1 = (c.store.entries.length : Int)
  rw [← hlen]
  push_cast
  rfl

theorem Count_nonneg {V : Type} (c : cache V) : 0 ≤ c.Count := by
  unfold cache.Count
  exact Int.ofNat_nonneg _

/-! ## C1: lifetime of an entry set with a positive ttl -/

/-- Where `t0 + ttl` is positive and fits int64: after `Set(k, v, ttl)` at `t0`
and any later calls that do not write `k`, `Get(k)` at `now <= t0 + ttl` returns
`(v, true)` and starts no delete, provided the sweep passes ran at clock
readings `<= now`; and `Get(k)` at `now > t0 + ttl` returns not-found. -/
theorem Set_ttl_lifetime {V : Type} (c : cache V) (k : String) (v : Option V)
    (ttl t0 now : Int) (ops : List (Op V))
    (httl : 0 < ttl) (hpos : 0 < t0 + ttl) (hfit : t0 + ttl ≤ MaxInt64)
    (hk : ∀ op ∈ ops, op.touches k = false) :
    (now ≤ t0 + ttl → (∀ op ∈ ops, op.sweepsBy now = true) →
      (runOps ops (c.Set k v ttl t0)).Get k now =
        { val := v, ok := true, c := runOps ops (c.Set k v ttl t0), spawned := [] }) ∧
    (t0 + ttl < now →
      ((runOps ops (c.Set k v ttl t0)).Get k now).ret = (none, false)) := by
  have hw : wrapInt64 (t0 + ttl) = t0 + ttl :=
    wrapInt64_eq_self ⟨by unfold MinInt64; omega, hfit⟩
  have hset : (c.Set k v ttl t0).store.lookup k =
      some { key := k, val := v, exp := t0 + ttl } := by
    rw [lookup_Set_self]
    simp [httl, hw]
  constructor
  · intro hle hsw
    have hkeep : (runOps ops (c.Set k v ttl t0)).store.lookup k =
        some { key := k, val := v, exp := t0 + ttl } := by
      apply lookup_runOps_keep k _ ops _ hk _ hset
      intro op hop t ht
      apply isExpired_eq_false_of_le
      have h1 := hsw op hop
      rw [ht] at h1
      simp [Op.sweepsBy] at h1
      show t ≤ t0 + ttl
      omega
    exact Get_of_live _ k now _ hkeep (Or.inr hle)
  · intro hlt
    cases hl : (runOps ops (c.Set k v ttl t0)).store.lookup k with
    | none => rw [Get_of_lookup_none _ k now hl]; rfl
    | some it =>
      have hsub := lookup_runOps_sub k it ops _ hk hl
      rw [hset] at hsub
      have hit : it = { key := k, val := v, exp := t0 + ttl } := by
        simpa using hsub.symm
      have hexp : it.exp = t0 + ttl := by rw [hit]
      rw [Get_of_expired _ k now it hl (by omega) (by omega)]
      rfl

/-- Without a sweep pass the lifetime is the ttl for every clock reading and
every positive ttl, also when `t0 + ttl` overflows int64: after `Set(k, v, ttl)`
at `t0` and any later calls that are not sweep passes and do not write `k`,
`Get(k)` at `now <= t0 + ttl` returns `(v, true)`, and at `now > t0 + ttl`
not-found. -/
theorem Set_ttl_lifetime_without_sweep {V : Type} (c : cache V) (k : String) (v : Option V)
    (ttl t0 now : Int) (ops : List (Op V))
    (httl : 0 < ttl) (hd : ttl ≤ MaxInt64) (ht0 : isClock t0) (hnow : isClock now)
    (hk : ∀ op ∈ ops, op.touches k = false) (hns : ∀ op ∈ ops, ∀ t, op ≠ Op.doEvict t) :
    (now ≤ t0 + ttl →
      ((runOps ops (c.Set k v ttl t0)).Get k now).ret = (v, true)) ∧
    (t0 + ttl < now →
      ((runOps ops (c.Set k v ttl t0)).Get k now).ret = (none, false)) := by
  unfold isClock MaxInt64 at ht0 hnow
  unfold MaxInt64 at hd
  have hset : (c.Set k v ttl t0).store.lookup k =
      some { key := k, val := v, exp := wrapInt64 (t0 + ttl) } := by
    rw [lookup_Set_self]
    simp [httl]
  constructor
  · intro hle
    have hkeep : (runOps ops (c.Set k v ttl t0)).store.lookup k =
        some { key := k, val := v, exp := wrapInt64 (t0 + ttl) } := by
      apply lookup_runOps_keep k _ ops _ hk _ hset
      intro op hop t ht
      exact absurd ht (hns op hop t)
    rw [Get_of_live _ k now _ hkeep]
    · rfl
    · show wrapInt64 (t0 + ttl) ≤ 0 ∨ now ≤ wrapInt64 (t0 + ttl)
      unfold wrapInt64
      omega
  · intro hlt
    exact Set_ttl_lifetime c k v ttl t0 now ops httl (by omega) (by unfold MaxInt64; omega) hk
      |>.2 hlt

/-- C1 (the code at the failing input): `Set("k", 7, MaxInt64)` on a cache with
a janitor, at a present-day clock reading `t0`.  The sum `t0 + ttl` overflows
int64 and the stored expiration is negative.  `Get("k")` 1ms later returns
`(7, true)`; the sweep pass at `t0 + 1ms` removes the entry, and `Get("k")` at
`now = t0 + 2ms`, well within `t0 <= now <= t0 + ttl`, returns not-found. -/
theorem C1_huge_ttl_swept_early :
    (0 : Int) < MaxInt64 ∧ isClock sampleNow ∧ isClock (sampleNow + 2 * Millisecond) ∧
    sampleNow ≤ sampleNow + 2 * Millisecond ∧
    sampleNow + 2 * Millisecond ≤ sampleNow + MaxInt64 ∧
    sampleNow + 1 * Millisecond ≤ sampleNow + 2 * Millisecond ∧
    overflowCache.store.lookup "k" =
      some { key := "k", val := some 7, exp := -7523372036854775809 } ∧
    (overflowCache.Get "k" (sampleNow + 1 * Millisecond)).ret = (some 7, true) ∧
    (runOps [Op.doEvict (sampleNow + 1 * Millisecond)] overflowCache).store.lookup "k" = none ∧
    ((runOps [Op.doEvict (sampleNow + 1 * Millisecond)] overflowCache).Get "k"
      (sampleNow + 2 * Millisecond)).ret = (none, false) := by
  decide

/-! ## C2: entries without expiration -/

/-- C2: for every store, key `k` and value `v`: after `SetNoExpiry(k, v)`, or
after `Set(k, v, ttl)` with any `ttl <= 0`, the entry of `k` is `(k, v, 0)` after
any later calls that do not write `k` (among them sweep passes at any clock
readings), and `Get(k)` returns `(v, true)` at every clock reading and starts
no delete. -/
theorem C2_no_expiry_never_expires {V : Type} (c : cache V) (k : String) (v : Option V)
    (t0 now : Int) (ops : List (Op V)) (hk : ∀ op ∈ ops, op.touches k = false) :
    (∀ ttl : Int, ttl ≤ 0 →
      (runOps ops (c.Set k v ttl t0)).store.lookup k = some { key := k, val := v, exp := 0 } ∧
      (runOps ops (c.Set k v ttl t0)).Get k now =
        { val := v, ok := true, c := runOps ops (c.Set k v ttl t0), spawned := [] }) ∧
    (runOps ops (c.SetNoExpiry k v t0)).store.lookup k = some { key := k, val := v, exp := 0 } ∧
    (runOps ops (c.SetNoExpiry k v t0)).Get k now =
      { val := v, ok := true, c := runOps ops (c.SetNoExpiry k v t0), spawned := [] } := by
  have hx : ∀ op ∈ ops, ∀ t, op = Op.doEvict t →
      ({ key := k, val := v, exp := 0 } : item V).isExpired t = false := by
    intro op _ t _
    exact isExpired_eq_false_of_zero _ t rfl
  have h2 := lookup_runOps_keep k _ ops _ hk hx (lookup_SetNoExpiry_self c k v t0)
  refine ⟨?_, h2, Get_of_live _ k now _ h2 (Or.inl (le_refl _))⟩
  intro ttl httl
  have hset : (c.Set k v ttl t0).store.lookup k = some { key := k, val := v, exp := 0 } := by
    rw [lookup_Set_self]
    have h3 : ¬ ttl > 0 := by omega
    simp [h3]
  have h1 := lookup_runOps_keep k _ ops _ hk hx hset
  exact ⟨h1, Get_of_live _ k now _ h1 (Or.inl (le_refl _))⟩

/-- C2 (witness): a key set with ttl -5, with ttl 0 and with `SetNoExpiry` in
the cache of `TestCacheExpiration`, read at the largest clock reading after
the sweep passes of the test. -/
theorem C2_no_expiry_never_expires_witness :
    ((runOps testSweeps (testCache.Set "z" (some 9) (-5) sampleNow)).store.lookup "z" =
        some { key := "z", val := some 9, exp := 0 } ∧
      (runOps testSweeps (testCache.Set "z" (some 9) (-5) sampleNow)).Get "z" MaxInt64 =
        { val := some 9, ok := true,
          c := runOps testSweeps (testCache.Set "z" (some 9) (-5) sampleNow), spawned := [] }) ∧
    ((runOps testSweeps (testCache.Set "z" (some 9) 0 sampleNow)).store.lookup "z" =
        some { key := "z", val := some 9, exp := 0 } ∧
      (runOps testSweeps (testCache.Set "z" (some 9) 0 sampleNow)).Get "z" MaxInt64 =
        { val := some 9, ok := true,
          c := runOps testSweeps (testCache.Set "z" (some 9) 0 sampleNow), spawned := [] }) ∧
    (runOps testSweeps (testCache.SetNoExpiry "z" (some 9) sampleNow)).Get "z" MaxInt64 =
      { val := some 9, ok := true,
        c := runOps testSweeps (testCache.SetNoExpiry "z" (some 9) sampleNow), spawned := [] } :=
  have h := C2_no_expiry_never_expires testCache "z" (some 9) sampleNow MaxInt64 testSweeps
    (by decide)
  ⟨h.1 (-5) (by decide), h.1 0 (by decide), h.2.2⟩

/-! ## C3: Set replaces value and expiration -/

/-- C3: `Set` on a key replaces both the value and the expiration, with no
merge: for every store (holding `k` with any value and expiration, or not),
after `Set(k, v2, ttl)` at `t0` the entry of `k` is exactly `(k, v2, e)` where
`e` is 0 for `ttl <= 0` and the int64 reading of `t0 + ttl` otherwise, whatever
was stored before.  In particular, for clock readings `t0` and `now`: after
`Set(k, v1, NoExpiry)` then `Set(k, v2, 10ms)` at `t0`, `Get(k)` returns
`(v2, true)` up to `t0 + 10ms` and not-found after it; and after
`Set(k, v1, 10ms)` then `SetNoExpiry(k, v2)`, `Get(k)` returns `(v2, true)` at
every clock reading. -/
theorem C3_Set_replaces {V : Type} (c : cache V) (k : String) (v1 v2 : Option V)
    (ttl t0 t1 now : Int) :
    (c.Set k v2 ttl t0).store.lookup k =
      some { key := k, val := v2, exp := if ttl > 0 then wrapInt64 (t0 + ttl) else 0 } ∧
    (isClock t0 → isClock now →
      (now ≤ t0 + 10 * Millisecond →
        (((c.Set k v1 NoExpiry t1).Set k v2 (10 * Millisecond) t0).Get k now).ret
          = (v2, true)) ∧
      (t0 + 10 * Millisecond < now →
        (((c.Set k v1 NoExpiry t1).Set k v2 (10 * Millisecond) t0).Get k now).ret
          = (none, false))) ∧
    (((c.Set k v1 (10 * Millisecond) t1).SetNoExpiry k v2 t0).Get k now).ret = (v2, true) := by
  have hms : (10 * Millisecond > 0) := by decide
  have hset : ((c.Set k v1 NoExpiry t1).Set k v2 (10 * Millisecond) t0).store.lookup k =
      some { key := k, val := v2, exp := wrapInt64 (t0 + 10 * Millisecond) } := by
    rw [lookup_Set_self]
    simp [hms]
  refine ⟨lookup_Set_self c k v2 ttl t0, ?_, ?_⟩
  · intro ht0 hnow
    unfold isClock MaxInt64 at ht0 hnow
    have hpos : 0 < t0 + 10 * Millisecond := by
      unfold Millisecond
      omega
    constructor
    · intro hle
      rw [Get_of_live _ k now _ hset]
      · rfl
      · show wrapInt64 (t0 + 10 * Millisecond) ≤ 0 ∨ now ≤ wrapInt64 (t0 + 10 * Millisecond)
        unfold wrapInt64
        unfold Millisecond at *
        omega
    · intro hlt
      have hw : wrapInt64 (t0 + 10 * Millisecond) = t0 + 10 * Millisecond := by
        apply wrapInt64_eq_self
        unfold isInt64 MinInt64 MaxInt64
        omega
      rw [Get_of_expired _ k now _ hset]
      · rfl
      · show 0 < wrapInt64 (t0 + 10 * Millisecond)
        rw [hw]; exact hpos
      · show wrapInt64 (t0 + 10 * Millisecond) < now
        rw [hw]; exact hlt
  · rw [Get_of_live _ k now _ (lookup_SetNoExpiry_self _ k v2 t0) (Or.inl (le_refl _))]
    rfl

/-- C3 (witness): key "a" of the test cache, set without expiry and then with
ttl 10ms at `sampleNow`, is found 10ms later and not-found 11ms later; set with
ttl 10ms and then without expiry it is found. -/
theorem C3_Set_replaces_witness :
    (((testCache.Set "a" (some 4) NoExpiry 0).Set "a" (some 5) (10 * Millisecond)
        sampleNow).Get "a" (sampleNow + 10 * Millisecond)).ret = (some 5, true) ∧
    (((testCache.Set "a" (some 4) NoExpiry 0).Set "a" (some 5) (10 * Millisecond)
        sampleNow).Get "a" (sampleNow + 11 * Millisecond)).ret = (none, false) ∧
    (((testCache.Set "a" (some 4) (10 * Millisecond) 0).SetNoExpiry "a" (some 5)
        sampleNow).Get "a" (sampleNow + 11 * Millisecond)).ret = (some 5, true) :=
  have h := C3_Set_replaces testCache "a" (some 4) (some 5) (10 * Millisecond) sampleNow 0
    (sampleNow + 10 * Millisecond)
  have g := C3_Set_replaces testCache "a" (some 4) (some 5) (10 * Millisecond) sampleNow 0
    (sampleNow + 11 * Millisecond)
  ⟨(h.2.1 (by decide) (by decide)).1 (by decide),
   (g.2.1 (by decide) (by decide)).2 (by decide), g.2.2⟩

/-! ## C4: lazy expiry in Get -/

/-- C4 (counterexample): after `Set("k", 7, MaxInt64)` at a present-day clock
reading the stored expiration is negative: it is set (not the sentinel 0) and
it has passed (`isExpired` is true, a sweep pass would remove the entry), yet
`Get` returns `(7, true)` and starts no delete, because it checks `exp > 0`
first. -/
theorem C4_counterexample :
    ((New 0 : cache Nat).Set "k" (some 7) MaxInt64 sampleNow).store.lookup "k" =
      some { key := "k", val := some 7, exp := -7523372036854775809 } ∧
    ((-7523372036854775809 : Int) ≠ 0 ∧ (-7523372036854775809 : Int) < sampleNow + 1) ∧
    ({ key := "k", val := some 7, exp := -7523372036854775809 } : item Nat).isExpired
      (sampleNow + 1) = true ∧
    ((New 0 : cache Nat).Set "k" (some 7) MaxInt64 sampleNow).Get "k" (sampleNow + 1) =
      { val := some 7, ok := true,
        c := (New 0 : cache Nat).Set "k" (some 7) MaxInt64 sampleNow, spawned := [] } :=
  ⟨by decide, by decide, by decide, rfl⟩

/-- C4 (amended): for every store, key `k` and clock reading `now`: if the entry
of `k` has a positive expiration that has passed at `now`, `Get(k)` returns
`(nil, false)`, leaves the cache as it is, and starts exactly one delete, whose
target is the key field of the item, which is `k` in every store whose items
carry their map key (every reachable store);
if `k` is absent `Get` returns `(nil, false)`, and if the entry never expires
(expiration 0) or has not yet expired (`now <= exp`) `Get` returns its value and
true, in both cases starting no delete and changing nothing.  Consequently `Get`
never returns found for an entry whose positive expiration has passed. -/
theorem C4_Get_lazy_expiry {V : Type} (c : cache V) (k : String) (now : Int) :
    (∀ it, c.store.lookup k = some it → 0 < it.exp → it.exp < now →
      c.Get k now = { val := none, ok := false, c := c, spawned := [it.key] } ∧
      (c.keyed → c.Get k now = { val := none, ok := false, c := c, spawned := [k] })) ∧
    (c.store.lookup k = none →
      c.Get k now = { val := none, ok := false, c := c, spawned := [] }) ∧
    (∀ it, c.store.lookup k = some it → (it.exp = 0 ∨ now ≤ it.exp) →
      c.Get k now = { val := it.val, ok := true, c := c, spawned := [] }) ∧
    (∀ it, c.store.lookup k = some it → 0 < it.exp → it.exp < now →
      (c.Get k now).ok = false) := by
  refine ⟨?_, ?_, ?_, ?_⟩
  · intro it h hpos hlt
    refine ⟨Get_of_expired c k now it h hpos hlt, ?_⟩
    intro hkey
    rw [Get_of_expired c k now it h hpos hlt, hkey k it h]
  · intro h
    exact Get_of_lookup_none c k now h
  · intro it h hlive
    apply Get_of_live c k now it h
    rcases hlive with h0 | hle
    · exact Or.inl (by omega)
    · exact Or.inr hle
  · intro it h hpos hlt
    rw [Get_of_expired c k now it h hpos hlt]

/-- C4 (witness): in the cache of `TestCacheExpiration`, 11ms after the calls,
`Get("b")` returns not-found and starts a delete of "b", `Get("q")` finds
nothing, `Get("c")` and `Get("a")` return their values. -/
theorem C4_Get_lazy_expiry_witness :
    testCache.Get "b" (sampleNow + 11 * Millisecond) =
      { val := none, ok := false, c := testCache, spawned := ["b"] } ∧
    testCache.Get "q" (sampleNow + 11 * Millisecond) =
      { val := none, ok := false, c := testCache, spawned := [] } ∧
    testCache.Get "c" (sampleNow + 11 * Millisecond) =
      { val := some 3, ok := true, c := testCache, spawned := [] } ∧
    testCache.Get "a" (sampleNow + 11 * Millisecond) =
      { val := some 1, ok := true, c := testCache, spawned := [] } :=
  ⟨((C4_Get_lazy_expiry testCache "b" (sampleNow + 11 * Millisecond)).1
      { key := "b", val := some 2, exp := sampleNow + 10 * Millisecond }
      (by decide) (by decide) (by decide)).2 keyed_testCache,
   (C4_Get_lazy_expiry testCache "q" (sampleNow + 11 * Millisecond)).2.1 (by decide),
   (C4_Get_lazy_expiry testCache "c" (sampleNow + 11 * Millisecond)).2.2.1
      { key := "c", val := some 3, exp := sampleNow + 50 * Millisecond }
      (by decide) (by decide),
   (C4_Get_lazy_expiry testCache "a" (sampleNow + 11 * Millisecond)).2.2.1
      { key := "a", val := some 1, exp := 0 } (by decide) (by decide)⟩

/-! ## C5: Delete -/

/-- C5: for every store (whatever it holds for `k`) and every key `k`: after
`Delete(k)` the map has no entry for `k`, and `Get(k)` returns `(nil, false)`
and starts no delete at every clock reading, also after any later calls that do
not write `k` (sweep passes, reads, calls on other keys). -/
theorem C5_Delete_then_Get {V : Type} (c : cache V) (k : String) (now : Int) :
    (c.Delete k).store.lookup k = none ∧
    (c.Delete k).Get k now = { val := none, ok := false, c := c.Delete k, spawned := [] } ∧
    (∀ ops : List (Op V), (∀ op ∈ ops, op.touches k = false) →
      (runOps ops (c.Delete k)).Get k now =
        { val := none, ok := false, c := runOps ops (c.Delete k), spawned := [] }) :=
  ⟨lookup_Delete_self c k, Get_of_lookup_none _ k now (lookup_Delete_self c k),
   fun ops hk =>
    Get_of_lookup_none _ k now (lookup_runOps_none k ops _ hk (lookup_Delete_self c k))⟩

/-- C5 (witness): deleting the live key "c", the never-expiring key "a", the
expired key "b" and the absent key "d" of the test cache. -/
theorem C5_Delete_then_Get_witness :
    (runOps testSweeps (testCache.Delete "c")).Get "c" sampleNow =
      { val := none, ok := false, c := runOps testSweeps (testCache.Delete "c"),
        spawned := [] } ∧
    (testCache.Delete "a").Get "a" sampleNow =
      { val := none, ok := false, c := testCache.Delete "a", spawned := [] } ∧
    (testCache.Delete "b").Get "b" (sampleNow + 11 * Millisecond) =
      { val := none, ok := false, c := testCache.Delete "b", spawned := [] } ∧
    (testCache.Delete "d").Get "d" sampleNow =
      { val := none, ok := false, c := testCache.Delete "d", spawned := [] } :=
  ⟨(C5_Delete_then_Get testCache "c" sampleNow).2.2 testSweeps (by decide),
   (C5_Delete_then_Get testCache "a" sampleNow).2.1,
   (C5_Delete_then_Get testCache "b" (sampleNow + 11 * Millisecond)).2.1,
   (C5_Delete_then_Get testCache "d" sampleNow).2.1⟩

/-! ## C6: Reset -/

/-- C6: for every store: after `Reset()`, `Count()` returns 0 and `Get(k)`
returns `(nil, false)` for every key `k` at every clock reading. -/
theorem C6_Reset_empties {V : Type} (c : cache V) (k : String) (now : Int) :
    c.Reset.Count = 0 ∧
    c.Reset.Get k now = { val := none, ok := false, c := c.Reset, spawned := [] } := by
  constructor
  · rfl
  · apply Get_of_lookup_none
    exact AList.lookup_empty k

/-! ## C7: a new store is empty -/

/-- C7: a store built by `New(ci)`, for every interval `ci`, is empty: `Count()`
is 0 and `Get(k)` returns `(nil, false)` for every key `k`; and in every store
`Get(k)` returns `(nil, false)` for every key that has no entry. -/
theorem C7_New_is_empty {V : Type} (ci : Int) (k : String) (now : Int) :
    (New ci : cache V).Count = 0 ∧
    (New ci : cache V).Get k now =
      { val := none, ok := false, c := New ci, spawned := [] } ∧
    (∀ c : cache V, c.store.lookup k = none →
      c.Get k now = { val := none, ok := false, c := c, spawned := [] }) := by
  refine ⟨rfl, ?_, ?_⟩
  · apply Get_of_lookup_none
    exact AList.lookup_empty k
  · intro c h
    exact Get_of_lookup_none c k now h

/-- C7 (witness): `New(0)`, `New(-1)` and `New(1ms)` are empty, and the test
cache has nothing under "d". -/
theorem C7_New_is_empty_witness :
    (New 0 : cache Nat).Count = 0 ∧ (New (-1) : cache Nat).Count = 0 ∧
    (New Millisecond : cache Nat).Get "a" sampleNow =
      { val := none, ok := false, c := New Millisecond, spawned := [] } ∧
    testCache.Get "d" sampleNow = { val := none, ok := false, c := testCache, spawned := [] } :=
  ⟨(C7_New_is_empty 0 "a" sampleNow).1, (C7_New_is_empty (-1) "a" sampleNow).1,
   (C7_New_is_empty Millisecond "a" sampleNow).2.1,
   (C7_New_is_empty 0 "d" sampleNow).2.2 testCache (by decide)⟩

/-! ## C8: Count after insertions -/

/-- C8: for every list of pairwise distinct keys and every empty store (one
built by `New`, or any store just `Reset`): calling `Set` (with any ttl, in
particular none) or `SetNoExpiry` once per key gives a `Count()` equal to the
number of keys.  For every store, `Set(k, ...)` increases `Count` by exactly 1
when `k` has no entry and leaves it unchanged when `k` has one. -/
theorem C8_Count_after_Sets {V : Type} (ci : Int) (c : cache V) (k : String)
    (w : Option V) (ttl now : Int) :
    (∀ (keys : List String) (v : String → Option V) (d t : String → Int), keys.Nodup →
      (runOps (keys.map (fun j => Op.doSet j (v j) (d j) (t j))) (New ci : cache V)).Count
        = (keys.length : Int) ∧
      (runOps (keys.map (fun j => Op.doSetNoExpiry j (v j) (t j))) (New ci : cache V)).Count
        = (keys.length : Int) ∧
      (runOps (keys.map (fun j => Op.doSet j (v j) (d j) (t j))) c.Reset).Count
        = (keys.length : Int) ∧
      (runOps (keys.map (fun j => Op.doSetNoExpiry j (v j) (t j))) c.Reset).Count
        = (keys.length : Int)) ∧
    (c.store.lookup k = none → (c.Set k w ttl now).Count = c.Count + 1) ∧
    (c.store.lookup k ≠ none → (c.Set k w ttl now).Count = c.Count) := by
  refine ⟨?_, ?_, ?_⟩
  · intro keys v d t hnd
    have hS : ∀ j, (∃ x y z, (fun j => Op.doSet j (v j) (d j) (t j)) j = Op.doSet j x y z) ∨
        (∃ x z, (fun j => Op.doSet j (v j) (d j) (t j)) j = Op.doSetNoExpiry j x z) :=
      fun j => Or.inl ⟨v j, d j, t j, rfl⟩
    have hN : ∀ j, (∃ x y z, (fun j => (Op.doSetNoExpiry j (v j) (t j) : Op V)) j
          = Op.doSet j x y z) ∨
        (∃ x z, (fun j => (Op.doSetNoExpiry j (v j) (t j) : Op V)) j
          = Op.doSetNoExpiry j x z) :=
      fun j => Or.inr ⟨v j, t j, rfl⟩
    have hnew : ∀ j ∈ keys, (New ci : cache V).store.lookup j = none :=
      fun j _ => AList.lookup_empty j
    have hreset : ∀ j ∈ keys, c.Reset.store.lookup j = none :=
      fun j _ => AList.lookup_empty j
    have h0 : (New ci : cache V).Count = 0 := rfl
    have h1 : c.Reset.Count = 0 := rfl
    refine ⟨?_, ?_, ?_, ?_⟩
    · rw [Count_runOps_sets _ hS keys _ hnd hnew, h0]; simp
    · rw [Count_runOps_sets _ hN keys _ hnd hnew, h0]; simp
    · rw [Count_runOps_sets _ hS keys _ hnd hreset, h1]; simp
    · rw [Count_runOps_sets _ hN keys _ hnd hreset, h1]; simp
  · intro h; exact Count_set_of_absent c k w _ now h
  · intro h; exact Count_set_of_present c k w _ now h

/-- C8 (witness): the ten keys "0" to "9" of `TestCache_Count`, set with ttl 0,
give `Count() = 10`; setting the new key "d" in the test cache takes `Count`
from 3 to 4 and setting "a" again leaves it at 3. -/
theorem C8_Count_after_Sets_witness :
    (runOps (["0", "1", "2", "3", "4", "5", "6", "7", "8", "9"].map
        (fun j => Op.doSet j (some j.length) 0 sampleNow)) (New 0 : cache Nat)).Count = 10 ∧
    (testCache.Set "d" (some 4) 0 sampleNow).Count = 3 + 1 ∧
    (testCache.Set "a" (some 4) 0 sampleNow).Count = 3 :=
  ⟨((C8_Count_after_Sets 0 testCache "d" (some 4) 0 sampleNow).1
      ["0", "1", "2", "3", "4", "5", "6", "7", "8", "9"]
      (fun j => some j.length) (fun _ => 0) (fun _ => sampleNow) (by decide)).1,
   (C8_Count_after_Sets 0 testCache "d" (some 4) 0 sampleNow).2.1 (by decide),
   (C8_Count_after_Sets 0 testCache "a" (some 4) 0 sampleNow).2.2 (by decide)⟩

/-! ## C9: Count includes expired entries -/

/-- C9: `Count()` is the number of entries held in the map, whatever the clock
reads: it equals the number of keys, a `Get` leaves it unchanged, and an entry
whose positive expiration has passed, for which `Get` returns not-found, is
still counted (it accounts for exactly one unit of `Count`, which a `Delete`
takes away), also right after that `Get` returns.  Such a state exists: after
`Set("b", 2, 10ms)` on an empty store, 11ms later `Get("b")` returns not-found
while `Count()` is 1 before and after the `Get`, and 0 once the delete it
started has run. -/
theorem C9_Count_includes_expired {V : Type} (c : cache V) (k : String) (now : Int) :
    c.Count = (c.store.keys.length : Int) ∧
    (c.Get k now).c.Count = c.Count ∧
    (∀ it, c.store.lookup k = some it → 0 < it.exp → it.exp < now →
      (c.Get k now).ret = (none, false) ∧ 1 ≤ c.Count ∧ 1 ≤ (c.Get k now).c.Count ∧
      (c.Delete k).Count + 1 = c.Count) ∧
    (∃ (c0 : cache Nat) (k0 : String) (now0 : Int),
      (c0.Get k0 now0).ret = (none, false) ∧ c0.Count = 1 ∧ (c0.Get k0 now0).c.Count = 1 ∧
      (c0.Get k0 now0).spawned = [k0] ∧ ((c0.Get k0 now0).c.Delete k0).Count = 0) := by
  refine ⟨?_, ?_, ?_, ?_⟩
  · unfold cache.Count AList.keys List.keys
    rw [List.length_map]
  · rw [Get_c]
  · intro it h hpos hlt
    have hne : c.store.lookup k ≠ none := by rw [h]; exact Option.noConfusion
    have hd := Count_Delete_of_present c k hne
    have h0 := Count_nonneg (c.Delete k)
    rw [Get_c, Get_of_expired c k now it h hpos hlt]
    exact ⟨rfl, by omega, by omega, hd⟩
  · exact ⟨(New 0 : cache Nat).Set "b" (some 2) (10 * Millisecond) sampleNow, "b",
      sampleNow + 11 * Millisecond, by decide, by decide, by decide, by decide, by decide⟩

/-- C9 (witness): in the test cache, 11ms after the calls and before any sweep,
"b" has expired, `Get("b")` returns not-found and `Count()` is still 3. -/
theorem C9_Count_includes_expired_witness :
    (testCache.Get "b" (sampleNow + 11 * Millisecond)).ret = (none, false) ∧
    1 ≤ testCache.Count ∧ 1 ≤ (testCache.Get "b" (sampleNow + 11 * Millisecond)).c.Count ∧
    (testCache.Delete "b").Count + 1 = testCache.Count :=
  (C9_Count_includes_expired testCache "b" (sampleNow + 11 * Millisecond)).2.2.1
    { key := "b", val := some 2, exp := sampleNow + 10 * Millisecond }
    (by decide) (by decide) (by decide)

/-! ## C10: Delete is idempotent -/

/-- C10: for every store and key `k`, `Delete(k)` followed by `Delete(k)` yields
the same store as a single `Delete(k)`; and `Delete(k)` on a store with no entry
for `k` leaves the store unchanged.  `Delete` is a total function: it has no
error result. -/
theorem C10_Delete_idempotent {V : Type} (c : cache V) (k : String) :
    (c.Delete k).Delete k = c.Delete k ∧
    (c.store.lookup k = none → c.Delete k = c) :=
  ⟨Delete_of_absent (c.Delete k) k (lookup_Delete_self c k), Delete_of_absent c k⟩

/-- C10 (witness): deleting the absent key "d" leaves the test cache as it is,
and so does deleting "b" from the cache from which a sweep pass has removed it. -/
theorem C10_Delete_idempotent_witness :
    testCache.Delete "d" = testCache ∧
    (testCache.evict (sampleNow + 11 * Millisecond)).Delete "b" =
      testCache.evict (sampleNow + 11 * Millisecond) ∧
    (testCache.Delete "c").Delete "c" = testCache.Delete "c" :=
  ⟨(C10_Delete_idempotent testCache "d").2 (by decide),
   (C10_Delete_idempotent (testCache.evict (sampleNow + 11 * Millisecond)) "b").2 (by decide),
   (C10_Delete_idempotent testCache "c").1⟩

/-! ## C11: SetNoExpiry is Set without a ttl -/

/-- C11: `SetNoExpiry(k, v)` is equivalent to `Set(k, v, d)` for every `d <= 0`,
among them `NoExpiry` and 0: on the same store, whatever the clock reads at
either call, both give the identical store, and its entry for `k` has
expiration 0, the never-expire sentinel. -/
theorem C11_SetNoExpiry_eq_Set {V : Type} (c : cache V) (k : String) (v : Option V)
    (d t t2 : Int) (hd : d ≤ 0) :
    c.SetNoExpiry k v t = c.Set k v d t2 ∧
    c.SetNoExpiry k v t = c.Set k v NoExpiry t2 ∧
    c.SetNoExpiry k v t = c.Set k v 0 t2 ∧
    (c.SetNoExpiry k v t).store.lookup k = some { key := k, val := v, exp := 0 } := by
  have hgen : ∀ x : Int, x ≤ 0 → c.SetNoExpiry k v t = c.Set k v x t2 := by
    intro x hx
    unfold cache.SetNoExpiry cache.Set cache.set
    simp [hx, NoExpiry]
  exact ⟨hgen d hd, hgen NoExpiry (by decide), hgen 0 (le_refl _),
    lookup_SetNoExpiry_self c k v t⟩

/-- C11 (witness): on the test cache, `SetNoExpiry("a", 5)` and `Set("a", 5, -7)`
at two different clock readings give the same store. -/
theorem C11_SetNoExpiry_eq_Set_witness :
    testCache.SetNoExpiry "a" (some 5) sampleNow = testCache.Set "a" (some 5) (-7) 0 ∧
    testCache.SetNoExpiry "a" (some 5) sampleNow = testCache.Set "a" (some 5) NoExpiry 0 ∧
    testCache.SetNoExpiry "a" (some 5) sampleNow = testCache.Set "a" (some 5) 0 0 ∧
    (testCache.SetNoExpiry "a" (some 5) sampleNow).store.lookup "a" =
      some { key := "a", val := some 5, exp := 0 } :=
  C11_SetNoExpiry_eq_Set testCache "a" (some 5) (-7) sampleNow 0 (by decide)

/-! ## C12: the sweeper exists exactly for a positive interval -/

theorem janitor_run {V : Type} (op : Op V) (c : cache V) : (op.run c).janitor = c.janitor := by
  cases op with
  | doSet j v d now => rfl
  | doSetNoExpiry j v now => rfl
  | doGet j now => show ((c.Get j now).c).janitor = c.janitor; rw [Get_c]
  | doDelete j => rfl
  | doReset => rfl
  | doCount => rfl
  | doEvict now => rfl

theorem janitor_runOps {V : Type} : ∀ (ops : List (Op V)) (c : cache V),
    (runOps ops c).janitor = c.janitor := by
  intro ops
  induction ops with
  | nil => intro c; rfl
  | cons op ops ih =>
    intro c
    have hstep : runOps (op :: ops) c = runOps ops (op.run c) := rfl
    rw [hstep, ih, janitor_run]

/-- After a `Set` with a positive ttl whose expiration is positive and fits
int64, a read past the expiration misses, whatever calls not writing the key
came in between. -/
theorem Get_after_Set_expired {V : Type} (c : cache V) (k : String) (v : Option V)
    (ttl t0 now : Int) (ops : List (Op V))
    (httl : 0 < ttl) (hpos : 0 < t0 + ttl) (hfit : t0 + ttl ≤ MaxInt64)
    (hk : ∀ op ∈ ops, op.touches k = false) (hlt : t0 + ttl < now) :
    ((runOps ops (c.Set k v ttl t0)).Get k now).ret = (none, false) := by
  have hw : wrapInt64 (t0 + ttl) = t0 + ttl :=
    wrapInt64_eq_self ⟨by unfold MinInt64; omega, hfit⟩
  have hset : (c.Set k v ttl t0).store.lookup k =
      some { key := k, val := v, exp := t0 + ttl } := by
    rw [lookup_Set_self]
    simp [httl, hw]
  cases hl : (runOps ops (c.Set k v ttl t0)).store.lookup k with
  | none => rw [Get_of_lookup_none _ k now hl]; rfl
  | some it =>
    have hsub := lookup_runOps_sub k it ops _ hk hl
    rw [hset] at hsub
    have hit : it = { key := k, val := v, exp := t0 + ttl } := by
      simpa using hsub.symm
    have hexp : it.exp = t0 + ttl := by rw [hit]
    rw [Get_of_expired _ k now it hl (by omega) (by omega)]
    rfl

/-- C12: `New(ci)` creates a janitor if and only if `ci > 0`: for `ci <= 0` the
cache has none, and none appears later; for `ci > 0` the janitor holds exactly
the interval `ci`.  Expiration works without it: on a store built with
`New(ci)` for any `ci <= 0` (in particular `New(0)`), after `Set(k, v, ttl > 0)`
at the clock reading `t0`, and any later calls that do not write `k`, a
`Get(k)` at a clock reading `now > t0 + ttl` returns not-found, and with no call
in between it starts the delete of `k`. -/
theorem C12_New_janitor {V : Type} (ci : Int) :
    (((New ci : cache V).janitor ≠ none) ↔ 0 < ci) ∧
    (0 < ci → (New ci : cache V).janitor = some { interval := ci }) ∧
    (ci ≤ 0 → ∀ ops : List (Op V), (runOps ops (New ci : cache V)).janitor = none) ∧
    (ci ≤ 0 → ∀ (k : String) (v : Option V) (ttl t0 now : Int) (ops : List (Op V)),
      0 < ttl → isClock t0 → isClock now → t0 + ttl < now →
      (∀ op ∈ ops, op.touches k = false) →
      ((runOps ops ((New ci : cache V).Set k v ttl t0)).Get k now).ret = (none, false) ∧
      ((New ci : cache V).Set k v ttl t0).Get k now =
        { val := none, ok := false, c := (New ci : cache V).Set k v ttl t0,
          spawned := [k] }) := by
  refine ⟨?_, ?_, ?_, ?_⟩
  · unfold New
    by_cases h : ci > 0
    · simp [h]
    · simp [h]
  · intro h
    unfold New
    simp [h]
  · intro h ops
    rw [janitor_runOps]
    unfold New
    have h2 : ¬ ci > 0 := by omega
    simp [h2]
  · intro _ k v ttl t0 now ops httl ht0 hnow hlt hk
    unfold isClock at ht0 hnow
    have hpos : 0 < t0 + ttl := by omega
    have hfit : t0 + ttl ≤ MaxInt64 := by omega
    refine ⟨Get_after_Set_expired _ k v ttl t0 now ops httl hpos hfit hk hlt, ?_⟩
    have hw : wrapInt64 (t0 + ttl) = t0 + ttl :=
      wrapInt64_eq_self ⟨by unfold MinInt64; omega, hfit⟩
    have hset : ((New ci : cache V).Set k v ttl t0).store.lookup k =
        some { key := k, val := v, exp := t0 + ttl } := by
      rw [lookup_Set_self]
      simp [httl, hw]
    rw [Get_of_expired _ k now _ hset hpos hlt]

/-- C12 (witness): `New(0)` and `New(-1)` have no janitor, `New(1ms)` has one
with interval 1ms; on `New(0)` a key set with ttl 10ms is not-found 11ms later
and the read starts its delete. -/
theorem C12_New_janitor_witness :
    (New Millisecond : cache Nat).janitor = some { interval := Millisecond } ∧
    (runOps testSweeps (New 0 : cache Nat)).janitor = none ∧
    (runOps testSweeps (New (-1) : cache Nat)).janitor = none ∧
    ((runOps [Op.doGet "b" sampleNow, Op.doSetNoExpiry "a" (some 1) sampleNow]
        ((New 0 : cache Nat).Set "b" (some 2) (10 * Millisecond) sampleNow)).Get "b"
          (sampleNow + 11 * Millisecond)).ret = (none, false) ∧
    ((New 0 : cache Nat).Set "b" (some 2) (10 * Millisecond) sampleNow).Get "b"
        (sampleNow + 11 * Millisecond) =
      { val := none, ok := false,
        c := (New 0 : cache Nat).Set "b" (some 2) (10 * Millisecond) sampleNow,
        spawned := ["b"] } :=
  have h := (C12_New_janitor 0).2.2.2 (by decide) "b" (some 2) (10 * Millisecond) sampleNow
    (sampleNow + 11 * Millisecond)
    [Op.doGet "b" sampleNow, Op.doSetNoExpiry "a" (some 1) sampleNow]
    (by decide) (by decide) (by decide) (by decide) (by decide)
  ⟨(C12_New_janitor Millisecond).2.1 (by decide),
   (C12_New_janitor 0).2.2.1 (by decide) testSweeps,
   (C12_New_janitor (-1)).2.2.1 (by decide) testSweeps, h.1, h.2⟩

/-! ## C14: what a sweep pass removes -/

theorem kerase_eq_filter {V : Type} (a : String) :
    ∀ (l : List (Sigma (fun _ : String => item V))), l.NodupKeys →
      List.kerase a l = l.filter (fun e => decide (e.1 ≠ a)) := by
  intro l
  induction l with
  | nil => intro _; rfl
  | cons x l ih =>
    intro hnd
    have hx : x.1 ∉ l.keys := (List.nodupKeys_cons.mp hnd).1
    have hl : l.NodupKeys := (List.nodupKeys_cons.mp hnd).2
    by_cases h : a = x.1
    · rw [List.kerase_cons_eq h]
      have hrej : decide (x.1 ≠ a) = false := by simp [h]
      rw [List.filter_cons_of_neg (by simp [hrej])]
      symm
      apply List.filter_eq_self.mpr
      intro e he
      have hek : e.1 ∈ l.keys := List.mem_keys_of_mem he
      have hne : e.1 ≠ a := by
        intro heq
        apply hx
        rw [← h, ← heq]
        exact hek
      simp [hne]
    · rw [List.kerase_cons_ne h]
      have hne : x.1 ≠ a := fun e => h e.symm
      rw [List.filter_cons_of_pos (by simp [hne]), ih hl]

/-- The entries left by the loop of `evict` run over `es`: those of the map
whose key is not the key of an expired element of `es`, in their places. -/
theorem entries_evictOver {V : Type} (now : Int) :
    ∀ (es : List (Sigma (fun _ : String => item V))) (m : Store V),
      (evictOver now es m).entries =
        m.entries.filter
          (fun e => !(es.any (fun x => decide (x.1 = e.1) && x.2.isExpired now))) := by
  intro es
  induction es with
  | nil =>
    intro m
    simp [evictOver]
  | cons x es ih =>
    intro m
    have hfold : evictOver now (x :: es) m = evictOver now es (evictStep now m x) := rfl
    rw [hfold, ih]
    by_cases hx : x.2.isExpired now = true
    · have hstep : (evictStep now m x).entries =
          m.entries.filter (fun e => decide (e.1 ≠ x.1)) := by
        unfold evictStep
        rw [if_pos hx]
        exact kerase_eq_filter x.1 m.entries m.nodupKeys
      rw [hstep, List.filter_filter]
      apply List.filter_congr
      intro e _
      by_cases hk : x.1 = e.1
      · have h1 : decide (x.1 = e.1) = true := decide_eq_true hk
        have h2 : decide (e.1 ≠ x.1) = false := decide_eq_false (fun h => h hk.symm)
        simp only [List.any_cons, h1, h2, hx, Bool.and_false, Bool.and_self, Bool.true_or,
          Bool.not_true]
      · have h1 : decide (x.1 = e.1) = false := decide_eq_false hk
        have h2 : decide (e.1 ≠ x.1) = true := decide_eq_true (fun h => hk h.symm)
        simp only [List.any_cons, h1, h2, Bool.and_true, Bool.false_and, Bool.false_or]
    · have hstep : evictStep now m x = m := by
        unfold evictStep
        rw [if_neg hx]
      rw [hstep]
      apply List.filter_congr
      intro e _
      simp [hx]

/-- Run over any list with the same elements as the map, the loop of `evict`
leaves exactly the entries that are not expired, in their places. -/
theorem entries_evictOver_of_mem_iff {V : Type} (now : Int) (m : Store V)
    (es : List (Sigma (fun _ : String => item V)))
    (hmem : ∀ e, e ∈ es ↔ e ∈ m.entries) :
    (evictOver now es m).entries = m.entries.filter (fun e => !e.2.isExpired now) := by
  rw [entries_evictOver]
  apply List.filter_congr
  intro e he
  by_cases hx : e.2.isExpired now = true
  · have hany : es.any (fun x => decide (x.1 = e.1) && x.2.isExpired now) = true := by
      rw [List.any_eq_true]
      exact ⟨e, (hmem e).mpr he, by simp [hx]⟩
    rw [hany, hx]
  · have hany : es.any (fun x => decide (x.1 = e.1) && x.2.isExpired now) = false := by
      apply Bool.eq_false_iff.mpr
      intro h
      rw [List.any_eq_true] at h
      obtain ⟨x, hxes, hp⟩ := h
      have hp2 : x.1 = e.1 ∧ x.2.isExpired now = true := by simpa using hp
      have hxe : x = e := m.nodupKeys.eq_of_fst_eq ((hmem x).mp hxes) he hp2.1
      rw [hxe] at hp2
      exact hx hp2.2
    have hx2 : e.2.isExpired now = false := by simpa using hx
    rw [hany, hx2]

/-- C14: for every store and clock reading `now`, `evict` at `now` leaves exactly
the entries that `isExpired` rejects at that one `now`, each in its place with
its key, value and expiration; `isExpired` holds exactly when the expiration is
set (not 0) and strictly before `now`.  So an entry with a set expiration
before `now` is removed, a never-expiring entry or one with `now <= exp` is
kept as it is, no entry is added, and the janitor is untouched.  The loop gives
the same store in whatever order it visits the entries of the map. -/
theorem C14_evict_removes_expired {V : Type} (c : cache V) (now : Int) :
    (c.evict now).store.entries = c.store.entries.filter (fun e => !e.2.isExpired now) ∧
    (∀ it : item V, it.isExpired now = true ↔ (it.exp ≠ 0 ∧ it.exp < now)) ∧
    (∀ k it, c.store.lookup k = some it → it.exp ≠ 0 → it.exp < now →
      (c.evict now).store.lookup k = none) ∧
    (∀ k it, c.store.lookup k = some it → (it.exp = 0 ∨ now ≤ it.exp) →
      (c.evict now).store.lookup k = some it) ∧
    (∀ k, c.store.lookup k = none → (c.evict now).store.lookup k = none) ∧
    (c.evict now).janitor = c.janitor ∧
    (∀ es : List (Sigma (fun _ : String => item V)), es.Perm c.store.entries →
      ({ c with store := evictOver now es c.store } : cache V) = c.evict now) := by
  have hent : (c.evict now).store.entries =
      c.store.entries.filter (fun e => !e.2.isExpired now) :=
    entries_evictOver_of_mem_iff now c.store c.store.entries (fun _ => Iff.rfl)
  refine ⟨hent, ?_, ?_, ?_, ?_, rfl, ?_⟩
  · intro it
    unfold item.isExpired
    by_cases h0 : it.exp = 0
    · simp [h0]
    · simp [h0]
  · intro k it h h0 hlt
    rw [lookup_evict, h]
    simp [Option.filter, isExpired_eq_true_of_lt it now h0 hlt]
  · intro k it h hlive
    rw [lookup_evict, h]
    have hx : it.isExpired now = false := by
      rcases hlive with h0 | hle
      · exact isExpired_eq_false_of_zero it now h0
      · exact isExpired_eq_false_of_le it now hle
    simp [Option.filter, hx]
  · intro k h
    rw [lookup_evict, h]
    rfl
  · intro es hperm
    apply cache_ext
    · show (evictOver now es c.store).entries = (c.evict now).store.entries
      rw [hent]
      exact entries_evictOver_of_mem_iff now c.store es (fun e => hperm.mem_iff)
    · rfl

/-- C14 (witness): a sweep pass of the test cache 11ms after the calls removes
"b" (ttl 10ms) and keeps "a" (no expiry) and "c" (ttl 50ms); visiting the
entries in reverse order gives the same store. -/
theorem C14_evict_removes_expired_witness :
    (testCache.evict (sampleNow + 11 * Millisecond)).store.lookup "b" = none ∧
    (testCache.evict (sampleNow + 11 * Millisecond)).store.lookup "a" =
      some { key := "a", val := some 1, exp := 0 } ∧
    (testCache.evict (sampleNow + 11 * Millisecond)).store.lookup "c" =
      some { key := "c", val := some 3, exp := sampleNow + 50 * Millisecond } ∧
    (testCache.evict (sampleNow + 11 * Millisecond)).store.lookup "d" = none ∧
    ({ testCache with
        store := evictOver (sampleNow + 11 * Millisecond) testCache.store.entries.reverse
          testCache.store } : cache Nat) = testCache.evict (sampleNow + 11 * Millisecond) :=
  have h := C14_evict_removes_expired testCache (sampleNow + 11 * Millisecond)
  ⟨h.2.2.1 "b" { key := "b", val := some 2, exp := sampleNow + 10 * Millisecond }
      (by decide) (by decide) (by decide),
   h.2.2.2.1 "a" { key := "a", val := some 1, exp := 0 } (by decide) (by decide),
   h.2.2.2.1 "c" { key := "c", val := some 3, exp := sampleNow + 50 * Millisecond }
      (by decide) (by decide),
   h.2.2.2.2.1 "d" (by decide),
   h.2.2.2.2.2.2 testCache.store.entries.reverse (List.reverse_perm _)⟩

/-! ## C15: the sweeper goroutine -/

theorem foldl_step_of_stopped {V : Type} :
    ∀ (events : List Event) (s : Sweeper V), s.state = RunState.STOPPED →
      events.foldl Sweeper.step s = s := by
  intro events
  induction events with
  | nil => intro s _; rfl
  | cons e es ih =>
    intro s hs
    have hstep : s.step e = s := by
      unfold Sweeper.step
      rw [hs]
    show es.foldl Sweeper.step (s.step e) = s
    rw [hstep]
    exact ih s hs

theorem foldl_step_of_running {V : Type} :
    ∀ (events : List Event) (c : cache V) (ps : List Int),
      events.foldl Sweeper.step { state := RunState.RUNNING, c := c, passes := ps } =
        { state := if Event.stop ∈ events then RunState.STOPPED else RunState.RUNNING,
          c := runOps ((ticksBeforeStop events).map Op.doEvict) c,
          passes := ps ++ ticksBeforeStop events } := by
  intro events
  induction events with
  | nil => intro c ps; simp [ticksBeforeStop, runOps]
  | cons e es ih =>
    intro c ps
    cases e with
    | tick now =>
      have hstep : List.foldl Sweeper.step
          { state := RunState.RUNNING, c := c, passes := ps } (Event.tick now :: es) =
          List.foldl Sweeper.step
            { state := RunState.RUNNING, c := c.evict now, passes := ps ++ [now] } es := rfl
      rw [hstep, ih]
      have hmem : (Event.stop ∈ Event.tick now :: es) ↔ (Event.stop ∈ es) := by simp
      simp only [hmem, ticksBeforeStop, List.map_cons, List.append_assoc, List.singleton_append]
      rfl
    | stop =>
      have hstep : List.foldl Sweeper.step
          { state := RunState.RUNNING, c := c, passes := ps } (Event.stop :: es) =
          List.foldl Sweeper.step
            { state := RunState.STOPPED, c := c, passes := ps } es := rfl
      rw [hstep, foldl_step_of_stopped es _ rfl]
      simp [ticksBeforeStop, runOps]

theorem ticksBeforeStop_ticks (ts : List Int) (post : List Event) :
    ticksBeforeStop (ts.map Event.tick ++ Event.stop :: post) = ts ∧
    ticksBeforeStop (ts.map Event.tick) = ts ∧
    Event.stop ∉ ts.map Event.tick := by
  induction ts with
  | nil => simp [ticksBeforeStop]
  | cons t ts ih =>
    obtain ⟨h1, h2, h3⟩ := ih
    refine ⟨?_, ?_, ?_⟩
    · show t :: ticksBeforeStop (ts.map Event.tick ++ Event.stop :: post) = t :: ts
      rw [h1]
    · show t :: ticksBeforeStop (ts.map Event.tick) = t :: ts
      rw [h2]
    · intro h
      rcases List.mem_cons.mp h with h4 | h4
      · exact Event.noConfusion h4
      · exact h3 h4

/-- C15: the sweeper is a two-state machine that starts RUNNING.  Over every
sequence of events, `janitor.run` performs one `evict` on its cache for each
tick received before the first stop signal, in order and at that tick's clock
reading, and no other; it is STOPPED exactly when a stop signal was among the
events; once STOPPED no event changes anything: no event leads back to RUNNING
and no `evict` is performed after the first stop signal. -/
theorem C15_janitor_run {V : Type} (j : janitor) (c : cache V) :
    j.run c [] = { state := RunState.RUNNING, c := c, passes := [] } ∧
    (∀ events : List Event,
      (j.run c events).passes = ticksBeforeStop events ∧
      (j.run c events).c = runOps ((ticksBeforeStop events).map Op.doEvict) c ∧
      ((j.run c events).state = RunState.STOPPED ↔ Event.stop ∈ events) ∧
      ((j.run c events).state = RunState.RUNNING ↔ Event.stop ∉ events)) ∧
    (∀ (ts : List Int) (post : List Event),
      j.run c (ts.map Event.tick ++ Event.stop :: post) =
        { state := RunState.STOPPED, c := runOps (ts.map Op.doEvict) c, passes := ts }) ∧
    (∀ ts : List Int,
      j.run c (ts.map Event.tick) =
        { state := RunState.RUNNING, c := runOps (ts.map Op.doEvict) c, passes := ts }) ∧
    (∀ (s : Sweeper V) (e : Event), s.state = RunState.STOPPED → s.step e = s) ∧
    (∀ events more : List Event, (j.run c events).state = RunState.STOPPED →
      j.run c (events ++ more) = j.run c events) := by
  have hrun : ∀ events : List Event, j.run c events =
      { state := if Event.stop ∈ events then RunState.STOPPED else RunState.RUNNING,
        c := runOps ((ticksBeforeStop events).map Op.doEvict) c,
        passes := ticksBeforeStop events } := by
    intro events
    unfold janitor.run
    rw [foldl_step_of_running]
    simp
  refine ⟨rfl, ?_, ?_, ?_, ?_, ?_⟩
  · intro events
    rw [hrun events]
    refine ⟨rfl, rfl, ?_, ?_⟩
    · by_cases h : Event.stop ∈ events
      · simp [h]
      · simp [h]
    · by_cases h : Event.stop ∈ events
      · simp [h]
      · simp [h]
  · intro ts post
    rw [hrun, (ticksBeforeStop_ticks ts post).1]
    simp
  · intro ts
    rw [hrun, (ticksBeforeStop_ticks ts []).2.1]
    simp [(ticksBeforeStop_ticks ts []).2.2]
  · intro s e hs
    unfold Sweeper.step
    rw [hs]
  · intro events more hs
    unfold janitor.run
    rw [List.foldl_append]
    exact foldl_step_of_stopped more _ hs

/-- C15 (witness): two ticks, a stop, then a late tick and a late stop, on the
test cache: two passes, at the readings of the first two ticks, the state is
STOPPED, and the late events change nothing. -/
theorem C15_janitor_run_witness :
    (janitor.run { interval := Millisecond } testCache testEvents).passes =
      [sampleNow + 1 * Millisecond, sampleNow + 11 * Millisecond] ∧
    (janitor.run { interval := Millisecond } testCache testEvents).state = RunState.STOPPED ∧
    janitor.run { interval := Millisecond } testCache
        ([Event.tick (sampleNow + 1 * Millisecond), Event.tick (sampleNow + 11 * Millisecond),
          Event.stop] ++ [Event.tick (sampleNow + 51 * Millisecond), Event.stop]) =
      janitor.run { interval := Millisecond } testCache
        [Event.tick (sampleNow + 1 * Millisecond), Event.tick (sampleNow + 11 * Millisecond),
          Event.stop] :=
  have h := C15_janitor_run { interval := Millisecond } testCache
  ⟨(h.2.1 testEvents).1, (h.2.1 testEvents).2.2.1.mpr (by decide),
   h.2.2.2.2.2 _ _ (by decide)⟩

/-! ## C16: the delete started by Get and a later Set -/

/-- Whatever `Set` stored in between, once a pending delete of `k` has run the
map has no entry for `k`. -/
theorem runDelete_after_Set_misses {V : Type} (w : World V) (k : String) (rest : List String)
    (v : Option V) (d t now : Int) (h : w.pending = k :: rest) :
    ((w.Set k v d t).runDelete).c.store.lookup k = none ∧
    (((w.Set k v d t).runDelete).c.Get k now).ret = (none, false) := by
  have hrun : (w.Set k v d t).runDelete =
      { c := (w.c.Set k v d t).Delete k, pending := rest } := by
    unfold World.runDelete World.Set
    simp only [h]
  rw [hrun]
  refine ⟨lookup_Delete_self _ k, ?_⟩
  rw [Get_of_lookup_none _ k now (lookup_Delete_self _ k)]
  rfl

/-- C16 (the code at the failing input): "k" is set with ttl 10ms; 11ms later
`Get("k")` finds it expired, returns not-found and starts `Delete("k")`; 12ms
later `Set("k", 2, NoExpiry)` stores a never-expiring entry, which `Get` returns
while the delete is still pending; then the started delete runs and removes
that live entry: `Get("k")` returns not-found and the map is empty. -/
theorem C16_stale_delete_removes_live_entry :
    (raceWorld0.Get "k" (sampleNow + 11 * Millisecond)).1 = (none, false) ∧
    raceWorld1.pending = ["k"] ∧
    raceWorld2.pending = ["k"] ∧
    raceWorld2.c.store.lookup "k" = some { key := "k", val := some 2, exp := 0 } ∧
    (raceWorld2.c.Get "k" (sampleNow + 12 * Millisecond)).ret = (some 2, true) ∧
    raceWorld3.pending = [] ∧
    raceWorld3.c.store.lookup "k" = none ∧
    (raceWorld3.c.Get "k" (sampleNow + 13 * Millisecond)).ret = (none, false) ∧
    raceWorld3.c.Count = 0 := by
  decide

/-! ## C17: Get and evict on a negative expiration -/

/-- Where the stored expiration is not negative, `Get` finds a key exactly when
a sweep pass at the same clock reading keeps its entry. -/
theorem Get_ok_iff_evict_keeps {V : Type} (c : cache V) (k : String) (now : Int)
    (hnn : ∀ it, c.store.lookup k = some it → 0 ≤ it.exp) :
    (c.Get k now).ok = true ↔
      ∃ it, c.store.lookup k = some it ∧ (c.evict now).store.lookup k = some it := by
  cases hl : c.store.lookup k with
  | none =>
    rw [Get_of_lookup_none c k now hl]
    constructor
    · intro h; exact Bool.noConfusion h
    · rintro ⟨it, h, _⟩; exact Option.noConfusion h
  | some it =>
    have h0 := hnn it hl
    by_cases hlive : it.exp = 0 ∨ now ≤ it.exp
    · have hlive2 : it.exp ≤ 0 ∨ now ≤ it.exp := by omega
      have hx : it.isExpired now = false := by
        rcases hlive with h1 | h1
        · exact isExpired_eq_false_of_zero it now h1
        · exact isExpired_eq_false_of_le it now h1
      rw [Get_of_live c k now it hl hlive2]
      constructor
      · intro _
        refine ⟨it, rfl, ?_⟩
        rw [lookup_evict, hl]
        simp [Option.filter, hx]
      · intro _; rfl
    · have hpos : 0 < it.exp := by omega
      have hlt : it.exp < now := by omega
      rw [Get_of_expired c k now it hl hpos hlt]
      constructor
      · intro h; exact Bool.noConfusion h
      · rintro ⟨b, hb, hev⟩
        rw [lookup_evict, hl] at hev
        have hb2 : b = it := by simpa using hb.symm
        rw [hb2] at hev
        simp [Option.filter, isExpired_eq_true_of_lt it now (by omega) hlt] at hev

/-- C17 (the code at the failing input): `Set("k", 7, MaxInt64)` at a present-day
clock reading on a new cache stores the int64 wrap of `now + ttl`, a negative
expiration.  One nanosecond later `Get("k")` returns `(7, true)`, because
`exp > 0` is false, while `isExpired` is true and a sweep pass at the same clock
reading removes the entry. -/
theorem C17_Get_and_evict_disagree :
    overflowCache = runOps [Op.doSet "k" (some 7) MaxInt64 sampleNow] (New Millisecond) ∧
    isInt64 MaxInt64 ∧ isInt64 sampleNow ∧ isInt64 (sampleNow + 1) ∧
    overflowCache.store.lookup "k" =
      some { key := "k", val := some 7, exp := -7523372036854775809 } ∧
    (overflowCache.Get "k" (sampleNow + 1)).ret = (some 7, true) ∧
    ({ key := "k", val := some 7, exp := -7523372036854775809 } : item Nat).isExpired
      (sampleNow + 1) = true ∧
    (overflowCache.evict (sampleNow + 1)).store.lookup "k" = none ∧
    (overflowCache.evict (sampleNow + 1)).Count = 0 :=
  ⟨rfl, by decide, by decide, by decide, by decide, by decide, by decide, by decide, by decide⟩

/-! ## C18: items carry the key they are stored under -/

/-- C18: in every store reachable from `New` by any sequence of `Set`,
`SetNoExpiry`, `Get`, `Delete`, `Reset`, `Count` and `evict` calls, each item
stored under map key `k` has its key field equal to `k`; so the delete that a
`Get(k)` starts, if it starts one, is a delete of `k`. -/
theorem C18_items_carry_their_key {V : Type} (ci : Int) (ops : List (Op V)) :
    (∀ (k : String) (it : item V),
      (runOps ops (New ci : cache V)).store.lookup k = some it → it.key = k) ∧
    (∀ (k : String) (now : Int),
      ((runOps ops (New ci : cache V)).Get k now).spawned = [] ∨
      ((runOps ops (New ci : cache V)).Get k now).spawned = [k]) := by
  have hkeyed : (runOps ops (New ci : cache V)).keyed := keyed_runOps ops _ (keyed_New ci)
  refine ⟨hkeyed, ?_⟩
  intro k now
  cases hl : (runOps ops (New ci : cache V)).store.lookup k with
  | none => left; rw [Get_of_lookup_none _ k now hl]
  | some it =>
    by_cases hx : 0 < it.exp ∧ it.exp < now
    · right
      rw [Get_of_expired _ k now it hl hx.1 hx.2, hkeyed k it hl]
    · left
      rw [Get_of_live _ k now it hl (by omega)]

/-- C18 (witness): after the calls of `TestCacheExpiration` and a sweep, a read
and a delete, the item under "c" has key "c". -/
theorem C18_items_carry_their_key_witness :
    ({ key := "c", val := some 3, exp := sampleNow + 50 * Millisecond } : item Nat).key = "c" :=
  (C18_items_carry_their_key Millisecond
    [Op.doSetNoExpiry "a" (some 1) sampleNow,
     Op.doSet "b" (some 2) (10 * Millisecond) sampleNow,
     Op.doSet "c" (some 3) (50 * Millisecond) sampleNow,
     Op.doEvict (sampleNow + 1 * Millisecond),
     Op.doGet "b" (sampleNow + 11 * Millisecond),
     Op.doDelete "b"]).1 "c"
    { key := "c", val := some 3, exp := sampleNow + 50 * Millisecond } (by decide)

/-! ## C19: calls on one key leave the other keys alone -/

theorem Get_congr {V : Type} (c d : cache V) (k : String) (now : Int)
    (h : c.store.lookup k = d.store.lookup k) :
    (c.Get k now).ret = (d.Get k now).ret ∧ (c.Get k now).spawned = (d.Get k now).spawned := by
  unfold cache.Get
  rw [h]
  cases d.store.lookup k with
  | none => exact ⟨rfl, rfl⟩
  | some it =>
    by_cases hx : it.exp > 0 ∧ it.isExpired now = true
    · simp [hx]
      rfl
    · simp [hx]
      rfl

/-- C19: for every store and keys `k`, `j` with `j` different from `k`:
`Set(k, v, ttl)`, `SetNoExpiry(k, v)` and `Delete(k)` leave the entry of `j` as
it is (present or absent, with its value and expiration), hence also what
`Get(j)` returns and starts at every clock reading; and `Get` and `Count` leave
the whole cache as it is. -/
theorem C19_other_keys_untouched {V : Type} (c : cache V) (k j : String) (v : Option V)
    (ttl t now : Int) (hne : j ≠ k) :
    (c.Set k v ttl t).store.lookup j = c.store.lookup j ∧
    (c.SetNoExpiry k v t).store.lookup j = c.store.lookup j ∧
    (c.Delete k).store.lookup j = c.store.lookup j ∧
    (((c.Set k v ttl t).Get j now).ret = (c.Get j now).ret ∧
      ((c.Set k v ttl t).Get j now).spawned = (c.Get j now).spawned) ∧
    (((c.SetNoExpiry k v t).Get j now).ret = (c.Get j now).ret ∧
      ((c.SetNoExpiry k v t).Get j now).spawned = (c.Get j now).spawned) ∧
    (((c.Delete k).Get j now).ret = (c.Get j now).ret ∧
      ((c.Delete k).Get j now).spawned = (c.Get j now).spawned) ∧
    (∀ (x : String) (n : Int), (c.Get x n).c = c) ∧
    (Op.doCount : Op V).run c = c := by
  have h1 : (c.Set k v ttl t).store.lookup j = c.store.lookup j :=
    lookup_set_ne c k j v _ t hne
  have h2 : (c.SetNoExpiry k v t).store.lookup j = c.store.lookup j :=
    lookup_set_ne c k j v _ t hne
  have h3 : (c.Delete k).store.lookup j = c.store.lookup j := lookup_Delete_ne c k j hne
  exact ⟨h1, h2, h3, Get_congr _ c j now h1, Get_congr _ c j now h2, Get_congr _ c j now h3,
    fun x n => Get_c c x n, rfl⟩

/-- C19 (witness): in the test cache, setting or deleting "b" leaves the entry
of "c" and the result of `Get("c")` as they were. -/
theorem C19_other_keys_untouched_witness :
    (testCache.Set "b" (some 8) Millisecond 0).store.lookup "c" = testCache.store.lookup "c" ∧
    (testCache.Delete "b").store.lookup "c" = testCache.store.lookup "c" ∧
    ((testCache.Delete "b").Get "c" (sampleNow + 11 * Millisecond)).ret =
      (testCache.Get "c" (sampleNow + 11 * Millisecond)).ret :=
  have h := C19_other_keys_untouched testCache "b" "c" (some 8) Millisecond 0
    (sampleNow + 11 * Millisecond) (by decide)
  ⟨h.1, h.2.2.1, h.2.2.2.2.2.1.1⟩

end Stockpile
